import Mathlib

/-!
Shallow embedding of the World Bank economic-indicators ETL pipeline
(`main.py`) and proofs about its transform, aggregation and load stages.

Conventions of the embedding:
* numeric values (pandas float64 columns) are modelled as exact rationals;
* raw fields that can be missing (NaN / None) are modelled as `Option`;
* the MySQL tables are modelled as association lists keyed by their natural
  unique keys (`UNIQUE KEY` constraints in `create_tables`), with the
  database-managed timestamp columns (`loaded_at`, `updated_at`) and the
  surrogate `id` column outside the model;
* a failing Python assertion (the spec's `ValidationError`) is modelled as
  `Except.error`;
* a MySQL transaction is modelled as a fold of fallible writes over the
  storage state, committed when every write succeeds and discarded
  (rollback) when one fails.
-/

instance {ε α : Type} [DecidableEq ε] [DecidableEq α] : DecidableEq (Except ε α)
  | Except.error e, Except.error f =>
    if h : e = f then Decidable.isTrue (by rw [h]) else Decidable.isFalse (by simp [h])
  | Except.error _, Except.ok _ => Decidable.isFalse (by simp)
  | Except.ok _, Except.error _ => Decidable.isFalse (by simp)
  | Except.ok x, Except.ok y =>
    if h : x = y then Decidable.isTrue (by rw [h]) else Decidable.isFalse (by simp [h])

namespace WorldBankETL

/-- Raw extracted record, as appended by
`WorldBankExtractor.extract_all_data` (one dictionary per API record). -/
structure RawRow where
  country_code : Option String
  country_name : String
  indicator_code : String
  indicator_name : String
  year : Option Int
  value : Option ℚ
  extracted_at : Int
deriving DecidableEq

/-- Row of the transformed dataframe returned by
`EconomicDataTransformer.transform`: the surviving raw fields plus the
derived columns `decade`, `period` and `continent`. -/
structure CleanRow where
  country_code : String
  country_name : String
  indicator_code : String
  indicator_name : String
  year : Int
  value : ℚ
  decade : Int
  period : Option String
  continent : Option String
  extracted_at : Int
deriving DecidableEq

/-- Deduplication key used by
`drop_duplicates(subset=["country_code", "indicator_code", "year"])`. -/
def rawKey (r : RawRow) : Option String × String × Option Int :=
  (r.country_code, r.indicator_code, r.year)

/-- Keep the first element for every key (pandas `drop_duplicates`,
default `keep="first"`); `seen` accumulates the keys already retained. -/
def dedupByAux {α κ : Type} [DecidableEq κ] (key : α → κ) (seen : List κ) :
    List α → List α
  | [] => []
  | x :: t =>
    if key x ∈ seen then dedupByAux key seen t
    else x :: dedupByAux key (key x :: seen) t

/-- Keep the first element for every key. -/
def dedupBy {α κ : Type} [DecidableEq κ] (key : α → κ) (l : List α) : List α :=
  dedupByAux key [] l

/-- `self.df.drop_duplicates(subset=["country_code", "indicator_code", "year"])`. -/
def dropDuplicates (rows : List RawRow) : List RawRow := dedupBy rawKey rows

/-- `self.df["decade"] = (self.df["year"] // 10) * 10` (Python floor division). -/
def decadeOf (y : Int) : Int := Int.fdiv y 10 * 10

/-- `pd.cut(year, bins=[2000, 2010, 2015, 2020, 2025], labels=[...],
include_lowest=True)`: pandas bins are right-inclusive by default
(`right=True`), and `include_lowest` additionally closes the first bin on
the left; a year outside every bin gets no label. -/
def periodOf (y : Int) : Option String :=
  if 2000 ≤ y ∧ y ≤ 2010 then some "2000s"
  else if 2010 < y ∧ y ≤ 2015 then some "2010-2015"
  else if 2015 < y ∧ y ≤ 2020 then some "2015-2020"
  else if 2020 < y ∧ y ≤ 2025 then some "2020s"
  else none

/-- The static `continent_map` lookup; codes outside the map get no value. -/
def continentOf (c : String) : Option String :=
  if c = "IND" ∨ c = "CHN" ∨ c = "JPN" then some "Asia"
  else if c = "USA" then some "North America"
  else if c = "BRA" then some "South America"
  else if c = "GBR" ∨ c = "DEU" then some "Europe"
  else none

/-- Round to the nearest integer with ties to even (the IEEE rule used by
pandas `round`). -/
def roundHalfEven (q : ℚ) : Int :=
  if q - ⌊q⌋ < 1 / 2 then ⌊q⌋
  else if 1 / 2 < q - ⌊q⌋ then ⌊q⌋ + 1
  else if ⌊q⌋ % 2 = 0 then ⌊q⌋ else ⌊q⌋ + 1

/-- `self.df["value"].round(2)`. -/
def round2 (q : ℚ) : ℚ := (roundHalfEven (q * 100) : ℚ) / 100

/-- Build the enriched row for one surviving raw row.  The `getD` defaults
are only reached on rows whose `country_code`, `year` or `value` is
missing, which the validation in `transform` rules out before this map is
applied. -/
def enrichRow (r : RawRow) : CleanRow :=
  { country_code := r.country_code.getD ""
    country_name := r.country_name
    indicator_code := r.indicator_code
    indicator_name := r.indicator_name
    year := r.year.getD 0
    value := round2 (r.value.getD 0)
    decade := decadeOf (r.year.getD 0)
    period := r.year.bind periodOf
    continent := r.country_code.bind continentOf
    extracted_at := r.extracted_at }

/-- The dataframe state after the first two steps of
`EconomicDataTransformer.transform`: `drop_duplicates` (keep the first row
per key) followed by `dropna(subset=["value"])`. -/
def cleanedRaw (rows : List RawRow) : List RawRow :=
  (dropDuplicates rows).filter (fun r => r.value.isSome)

/-- `EconomicDataTransformer.transform`: deduplicate, drop rows with a
missing value, add the derived fields, and run the three data-quality
assertions, in the source's order (null country codes, null years, years
below 2000).  A failing assertion aborts the transform with no output.
In the source the derived columns are computed before the assertions;
they are per-row and the assertions only inspect `country_code` and
`year`, so computing them on the surviving rows after the checks yields
the same result. -/
def transform (rows : List RawRow) : Except String (List CleanRow) :=
  if (cleanedRaw rows).all (fun r => r.country_code.isSome) then
    if (cleanedRaw rows).all (fun r => r.year.isSome) then
      if (cleanedRaw rows).all (fun r => 2000 ≤ r.year.getD 0) then
        Except.ok ((cleanedRaw rows).map enrichRow)
      else Except.error "Invalid years found"
    else Except.error "Null years found"
  else Except.error "Null country codes found"

/-! ### Aggregations (`EconomicDataTransformer.create_aggregations`) -/

/-- Group key of the two per-indicator views:
`(country_code, indicator_code)`. -/
def ckey (r : CleanRow) : String × String := (r.country_code, r.indicator_code)

/-- Ascending-by-year comparison used by `sort_values("year")`. -/
def yearle (a b : CleanRow) : Prop := a.year ≤ b.year

instance : DecidableRel yearle := fun a b => Int.decLe a.year b.year

instance : IsTotal CleanRow yearle := ⟨fun a b => Int.le_total a.year b.year⟩

instance : IsTrans CleanRow yearle := ⟨fun _ _ _ h1 h2 => le_trans h1 h2⟩

/-- `self.df.sort_values("year")`, modelled as a stable ascending insertion
sort by year. -/
def sortByYear (l : List CleanRow) : List CleanRow := l.insertionSort yearle

/-- The rows of one `(country_code, indicator_code)` group, in dataframe
order. -/
def groupRows (rows : List CleanRow) (k : String × String) : List CleanRow :=
  rows.filter (fun r => ckey r = k)

/-- The row retained for one group by
`sort_values("year").groupby([...]).last()`: the last row of the group
after the stable ascending sort by year. -/
def groupLast (rows : List CleanRow) (k : String × String) : Option CleanRow :=
  ((sortByYear rows).filter (fun r => ckey r = k)).getLast?

/-- `create_aggregations`, latest values: sort by year, group by
`(country_code, indicator_code)`, take the last row of every group.
Groups are listed in first-appearance order of their keys; pandas lists
the groups in sorted key order instead, which affects neither membership
nor the per-group retained row. -/
def latestValues (rows : List CleanRow) : List CleanRow :=
  (dedupBy id (rows.map ckey)).filterMap (fun k => groupLast rows k)

/-- Row of the year-over-year view (`yoy_changes` dataframe, restricted to
the rows with a defined `yoy_change`). -/
structure YoyRow where
  country_code : String
  indicator_code : String
  year : Int
  value : ℚ
  yoy_change : ℚ
deriving DecidableEq

/-- The year-over-year row that `pct_change() * 100` produces for row `b`
whose immediate predecessor in the sorted group is `a`. -/
def mkYoy (b a : CleanRow) : YoyRow :=
  ⟨b.country_code, b.indicator_code, b.year, b.value,
    (b.value - a.value) / a.value * 100⟩

/-- `pct_change` along one year-sorted group: every row after the first is
paired with its immediate predecessor; the first row of the group has an
undefined change and is dropped by the `notna` filter. -/
def pctChain : List CleanRow → List YoyRow
  | a :: b :: t => mkYoy b a :: pctChain (b :: t)
  | _ => []

/-- `create_aggregations`, year-over-year changes: sort each group
ascending by year and take percentage changes between consecutive rows,
keeping only rows with a defined change.  The source sorts the whole
dataframe by `(country_code, indicator_code, year)` and lets `groupby`
split it; restricting the stable year-sort to one group gives the same
group contents in the same order. -/
def yoyChanges (rows : List CleanRow) : List YoyRow :=
  ((dedupBy id (rows.map ckey)).map
    (fun k => pctChain ((sortByYear rows).filter (fun r => ckey r = k)))).flatten

/-- `create_aggregations`, decade averages: group by
`(country_code, indicator_code, decade)` and take the arithmetic mean of
`value`. -/
def decadeAverages (rows : List CleanRow) : List (String × String × Int × ℚ) :=
  (dedupBy id (rows.map (fun r => (r.country_code, r.indicator_code, r.decade)))).map
    (fun g =>
      let vs := (rows.filter
        (fun r => (r.country_code, r.indicator_code, r.decade) = g)).map (·.value)
      (g.1, g.2.1, g.2.2, vs.sum / vs.length))

/-! ### Storage model (`MySQLLoader`)

Each table is an association list keyed by its `UNIQUE KEY`.  `upsert`
models `INSERT ... ON DUPLICATE KEY UPDATE ...`: a fresh key appends a row
built by `ins`, an existing key rewrites the stored row in place with
`upd`. -/

/-- Key of `economic_indicators` (and of `yoy_changes`):
`(country_code, indicator_code, year)`. -/
abbrev MainKey := String × String × Int

/-- Stored row of `economic_indicators` (modelled columns). -/
structure MainRec where
  country_name : String
  indicator_name : String
  value : ℚ
  decade : Int
  period : String
  continent : Option String
  extracted_at : Int
deriving DecidableEq

/-- Stored row of `latest_indicators`. -/
structure LatestRec where
  latest_year : Int
  latest_value : ℚ
deriving DecidableEq

/-- Stored row of `yoy_changes`. -/
structure YoyRec where
  value : ℚ
  yoy_change : ℚ
deriving DecidableEq

/-- Stored row of `country_summary`. -/
structure SummaryRec where
  country_name : String
  total_indicators : Nat
  latest_gdp : Option ℚ
  latest_population : Option ℚ
  avg_gdp_growth : Option ℚ
deriving DecidableEq

/-- The four tables written by the loader. -/
structure Storage where
  main : List (MainKey × MainRec)
  latest : List ((String × String) × LatestRec)
  yoy : List (MainKey × YoyRec)
  summary : List (String × SummaryRec)
deriving DecidableEq

/-- `INSERT ... ON DUPLICATE KEY UPDATE`: update the stored row in place if
the key exists, append a fresh row otherwise. -/
def upsert {κ ν : Type} [DecidableEq κ] (k : κ) (ins : ν) (upd : ν → ν) :
    List (κ × ν) → List (κ × ν)
  | [] => [(k, ins)]
  | e :: t => if e.1 = k then (e.1, upd e.2) :: t else e :: upsert k ins upd t

/-- Row lookup by key. -/
def lookup {κ ν : Type} [DecidableEq κ] (k : κ) : List (κ × ν) → Option ν
  | [] => none
  | e :: t => if e.1 = k then some e.2 else lookup k t

/-- Fold a batch of rows into a table, one upsert per row. -/
def applyRows {R κ ν : Type} [DecidableEq κ] (key : R → κ) (ins : R → ν)
    (upd : R → ν → ν) (rs : List R) (m : List (κ × ν)) : List (κ × ν) :=
  rs.foldl (fun acc r => upsert (key r) (ins r) (upd r) acc) m

/-- `str(row["period"])`: a missing (NaN) period is stringified as "nan"
before being bound into the insert. -/
def strOfPeriod : Option String → String
  | some s => s
  | none => "nan"

/-- Natural key of a transformed row in `economic_indicators`. -/
def mainKeyOf (r : CleanRow) : MainKey := (r.country_code, r.indicator_code, r.year)

/-- The row inserted into `economic_indicators` for a fresh key. -/
def mainInsert (r : CleanRow) : MainRec :=
  { country_name := r.country_name
    indicator_name := r.indicator_name
    value := r.value
    decade := r.decade
    period := strOfPeriod r.period
    continent := r.continent
    extracted_at := r.extracted_at }

/-- `ON DUPLICATE KEY UPDATE value = VALUES(value),
extracted_at = VALUES(extracted_at)`: only the two volatile columns are
rewritten on conflict. -/
def mainUpdate (r : CleanRow) (v : MainRec) : MainRec :=
  { v with value := r.value, extracted_at := r.extracted_at }

/-- `MySQLLoader.load_main_data` restricted to its effect on the
`economic_indicators` table. -/
def loadMainData (df : List CleanRow) (m : List (MainKey × MainRec)) :
    List (MainKey × MainRec) :=
  applyRows mainKeyOf mainInsert mainUpdate df m

/-- The `latest_indicators` upsert: on conflict both `latest_year` and
`latest_value` are overwritten unconditionally. -/
def loadLatest (lat : List CleanRow) (m : List ((String × String) × LatestRec)) :
    List ((String × String) × LatestRec) :=
  applyRows ckey (fun r => ⟨r.year, r.value⟩) (fun r _ => ⟨r.year, r.value⟩) lat m

/-- The `yoy_changes` upsert: on conflict both `value` and `yoy_change`
are overwritten unconditionally.  The source guards each insert with
`pd.notna(row["yoy_change"])`; in the rational model every change of the
view is defined, so every row is inserted. -/
def loadYoy (ys : List YoyRow) (m : List (MainKey × YoyRec)) :
    List (MainKey × YoyRec) :=
  applyRows (fun q => (q.country_code, q.indicator_code, q.year))
    (fun q => ⟨q.value, q.yoy_change⟩) (fun q _ => ⟨q.value, q.yoy_change⟩) ys m

/-- `MySQLLoader.load_aggregations`: upsert the latest-value view and the
year-over-year view (the decade averages are computed by the transformer
but never loaded). -/
def loadAggregations (lat : List CleanRow) (ys : List YoyRow) (s : Storage) :
    Storage :=
  { s with latest := loadLatest lat s.latest, yoy := loadYoy ys s.yoy }

/-- The row with the greatest year in a list of `economic_indicators`
entries (`ROW_NUMBER() OVER (... ORDER BY year DESC) = 1`); on equal years
the earlier entry is kept, but years inside one group are pairwise
distinct because `(country_code, indicator_code, year)` is the unique key. -/
def maxByYear (l : List (MainKey × MainRec)) : Option (MainKey × MainRec) :=
  l.foldl
    (fun acc e =>
      match acc with
      | none => some e
      | some a => if a.1.2.2 < e.1.2.2 then some e else some a)
    none

/-- The `rn = 1` subquery of `create_country_summary`: for every
`(country_code, indicator_code)` pair the entry with the most recent year. -/
def rn1 (m : List (MainKey × MainRec)) : List (MainKey × MainRec) :=
  (dedupBy id (m.map (fun e => (e.1.1, e.1.2.1)))).filterMap
    (fun p => maxByYear (m.filter (fun e => (e.1.1, e.1.2.1) = p)))

/-- The aggregate `SELECT ... GROUP BY country_code, country_name` of
`create_country_summary`, evaluated over the `rn = 1` entries. -/
def summaryRows (m : List (MainKey × MainRec)) : List (String × SummaryRec) :=
  let r1 := rn1 m
  (dedupBy id (r1.map (fun e => (e.1.1, e.2.country_name)))).map
    (fun g =>
      let grp := r1.filter (fun e => (e.1.1, e.2.country_name) = g)
      let pick := fun (code : String) =>
        grp.filterMap (fun e => if e.1.2.1 = code then some e.2.value else none)
      let gs := pick "NY.GDP.MKTP.KD.ZG"
      (g.1,
        { country_name := g.2
          total_indicators := (dedupBy id (grp.map (fun e => e.1.2.1))).length
          latest_gdp := (pick "NY.GDP.MKTP.CD").max?
          latest_population := (pick "SP.POP.TOTL").max?
          avg_gdp_growth := if gs.isEmpty then none else some (gs.sum / gs.length) }))

/-- The `country_summary` upsert: keyed on `country_code` alone; on
conflict every aggregate column is overwritten but `country_name` is not
listed in the `ON DUPLICATE KEY UPDATE` clause and is kept. -/
def applySummary (sr : List (String × SummaryRec)) (m : List (String × SummaryRec)) :
    List (String × SummaryRec) :=
  applyRows Prod.fst Prod.snd
    (fun e old => { e.2 with country_name := old.country_name }) sr m

/-- `MySQLLoader.create_country_summary`: recompute the summary rows from
the persisted `economic_indicators` table and upsert them. -/
def createCountrySummary (s : Storage) : Storage :=
  { s with summary := applySummary (summaryRows s.main) s.summary }

/-- One full application of a transformed batch to storage:
`load_main_data`, then `load_aggregations` on the views derived from the
same batch, then `create_country_summary`. -/
def loadAll (df : List CleanRow) (s : Storage) : Storage :=
  createCountrySummary
    (loadAggregations (latestValues df) (yoyChanges df)
      { s with main := loadMainData df s.main })

/-- The unique-key constraints of the four tables, which the database
enforces on any reachable storage state. -/
def StorageKeysNodup (s : Storage) : Prop :=
  (s.main.map Prod.fst).Nodup ∧ (s.latest.map Prod.fst).Nodup ∧
    (s.yoy.map Prod.fst).Nodup ∧ (s.summary.map Prod.fst).Nodup

instance : DecidablePred StorageKeysNodup := fun s => by
  unfold StorageKeysNodup; infer_instance

/-! ### Transactions and the top-level pipeline

Each loader method wraps its cursor writes in one transaction: the writes
are folded over the storage state and committed together; if any write
raises a MySQL error the transaction is rolled back (the folded state is
discarded and the original state kept) and the error is re-raised, which
the top-level `try` of `run_etl_pipeline` turns into a `False` return. -/

/-- A fallible table write: `none` models a MySQL error raised by
`cursor.execute`. -/
abbrev DbWrite := Storage → Option Storage

/-- Run the writes of one transaction over the current state. -/
def runTransaction (ws : List DbWrite) (s : Storage) : Option Storage :=
  ws.foldl (fun acc w => acc.bind w) (some s)

/-- Commit the transaction if every write succeeded, roll back to the
state before the transaction otherwise; the boolean records whether an
error was raised. -/
def commitOrRollback (ws : List DbWrite) (s : Storage) : Bool × Storage :=
  match runTransaction ws s with
  | some t => (true, t)
  | none => (false, s)

/-- The writes issued by `load_main_data`, one insert per dataframe row. -/
def mainWrites (df : List CleanRow) : List DbWrite :=
  df.map (fun r s =>
    some { s with main := upsert (mainKeyOf r) (mainInsert r) (mainUpdate r) s.main })

/-- The writes issued by `load_aggregations`: the latest-view inserts
followed by the year-over-year inserts, in one transaction. -/
def aggWrites (lat : List CleanRow) (ys : List YoyRow) : List DbWrite :=
  lat.map (fun r s =>
    some { s with
             latest := upsert (ckey r) ⟨r.year, r.value⟩
               (fun _ => ⟨r.year, r.value⟩) s.latest })
    ++ ys.map (fun q s =>
      some { s with
               yoy := upsert (q.country_code, q.indicator_code, q.year)
                 ⟨q.value, q.yoy_change⟩ (fun _ => ⟨q.value, q.yoy_change⟩) s.yoy })

/-- The single aggregate write issued by `create_country_summary`. -/
def sumWrites : List DbWrite :=
  [fun s => some (createCountrySummary s)]

/-- A write that always raises a MySQL error. -/
def failingWrite : DbWrite := fun _ => none

/-- Append a failing write to a batch when the environment flag says this
batch fails. -/
def withFailure (fail : Bool) (ws : List DbWrite) : List DbWrite :=
  if fail then ws ++ [failingWrite] else ws

/-- External behaviour of the collaborators during one run: whether
`connect()` succeeds, and whether a MySQL error occurs inside each of the
three write batches. -/
structure EnvFlags where
  connectOk : Bool
  mainFail : Bool
  aggFail : Bool
  sumFail : Bool
deriving DecidableEq

/-- Outcome of `run_etl_pipeline`: its boolean return value, the final
storage state, and the pipeline stages that were entered. -/
structure RunResult where
  success : Bool
  storage : Storage
  stages : List String
deriving DecidableEq

/-- `run_etl_pipeline`, with the already-extracted records as input (the
HTTP extraction loop is an external collaborator).  An empty extraction
returns `False` before the transform stage; a failed assertion in
`transform` is caught by the top-level `try` and returns `False`; a falsy
`connect()` skips the whole load block and the run still returns `True`;
a MySQL error in a write batch rolls that batch back, is re-raised and
caught at the top level, returning `False` with the earlier batches kept. -/
def runEtlPipeline (raw : List RawRow) (env : EnvFlags) (s : Storage) : RunResult :=
  if raw.isEmpty then ⟨false, s, ["extract"]⟩
  else
    match transform raw with
    | Except.error _ => ⟨false, s, ["extract", "transform"]⟩
    | Except.ok df =>
      if env.connectOk then
        match commitOrRollback (withFailure env.mainFail (mainWrites df)) s with
        | (false, s1) => ⟨false, s1, ["extract", "transform", "load"]⟩
        | (true, s1) =>
          match commitOrRollback
              (withFailure env.aggFail (aggWrites (latestValues df) (yoyChanges df))) s1 with
          | (false, s2) => ⟨false, s2, ["extract", "transform", "load"]⟩
          | (true, s2) =>
            match commitOrRollback (withFailure env.sumFail sumWrites) s2 with
            | (false, s3) => ⟨false, s3, ["extract", "transform", "load"]⟩
            | (true, s3) => ⟨true, s3, ["extract", "transform", "load"]⟩
      else ⟨true, s, ["extract", "transform", "load"]⟩

/-- The `__main__` guard calls `run_etl_pipeline()` and discards its
return value; with no uncaught exception the interpreter exits with
status 0. -/
def mainExitCode (raw : List RawRow) (env : EnvFlags) (s : Storage) : Nat :=
  let _ := runEtlPipeline raw env s
  0

/-! ### Association-list lemmas for the upsert semantics -/

section AssocList

variable {R κ ν : Type} [DecidableEq κ]

theorem lookup_nil (k : κ) : lookup k ([] : List (κ × ν)) = none := rfl

theorem lookup_cons (k : κ) (e : κ × ν) (t : List (κ × ν)) :
    lookup k (e :: t) = if e.1 = k then some e.2 else lookup k t := rfl

theorem upsert_nil (k : κ) (i : ν) (u : ν → ν) : upsert k i u [] = [(k, i)] := rfl

theorem upsert_cons (k : κ) (i : ν) (u : ν → ν) (e : κ × ν) (t : List (κ × ν)) :
    upsert k i u (e :: t) =
      if e.1 = k then (e.1, u e.2) :: t else e :: upsert k i u t := rfl

theorem lookup_upsert_self (k : κ) (i : ν) (u : ν → ν) (m : List (κ × ν)) :
    lookup k (upsert k i u m) = some ((lookup k m).elim i u) := by
  induction m with
  | nil => rw [upsert_nil, lookup_cons, lookup_nil, if_pos rfl]; rfl
  | cons e t ih =>
    rw [upsert_cons, lookup_cons]
    by_cases h : e.1 = k
    · rw [if_pos h, lookup_cons, if_pos h, if_pos h]; rfl
    · rw [if_neg h, lookup_cons, if_neg h, if_neg h, ih]

theorem lookup_upsert_ne (k q : κ) (hne : q ≠ k) (i : ν) (u : ν → ν)
    (m : List (κ × ν)) : lookup q (upsert k i u m) = lookup q m := by
  induction m with
  | nil =>
    rw [upsert_nil, lookup_cons, lookup_nil]
    exact if_neg (fun hc => hne hc.symm)
  | cons e t ih =>
    rw [upsert_cons]
    by_cases h : e.1 = k
    · have h2 : ¬ e.1 = q := by rw [h]; exact fun hc => hne hc.symm
      rw [if_pos h, lookup_cons, lookup_cons, if_neg h2, if_neg h2]
    · rw [if_neg h, lookup_cons, lookup_cons, ih]

theorem lookup_eq_none_iff (k : κ) (m : List (κ × ν)) :
    lookup k m = none ↔ k ∉ m.map Prod.fst := by
  induction m with
  | nil => simp [lookup_nil]
  | cons e t ih =>
    rw [List.map_cons, List.mem_cons, lookup_cons]
    by_cases h : e.1 = k
    · rw [if_pos h]
      constructor
      · intro hc; cases hc
      · intro hc; exact absurd (Or.inl h.symm) hc
    · rw [if_neg h, ih]
      constructor
      · intro hc hm
        rcases hm with hm | hm
        · exact h hm.symm
        · exact hc hm
      · intro hc hm; exact hc (Or.inr hm)

theorem lookup_isSome_iff (k : κ) (m : List (κ × ν)) :
    (lookup k m).isSome ↔ k ∈ m.map Prod.fst := by
  induction m with
  | nil => simp [lookup_nil]
  | cons e t ih =>
    rw [List.map_cons, List.mem_cons, lookup_cons]
    by_cases h : e.1 = k
    · rw [if_pos h]
      exact iff_of_true rfl (Or.inl h.symm)
    · rw [if_neg h, ih]
      constructor
      · exact Or.inr
      · rintro (hc | hc)
        · exact absurd hc.symm h
        · exact hc

theorem keys_upsert (k : κ) (i : ν) (u : ν → ν) (m : List (κ × ν)) :
    (upsert k i u m).map Prod.fst =
      if k ∈ m.map Prod.fst then m.map Prod.fst else m.map Prod.fst ++ [k] := by
  induction m with
  | nil => simp [upsert_nil]
  | cons e t ih =>
    rw [upsert_cons]
    by_cases h : e.1 = k
    · have hm : k ∈ (e :: t).map Prod.fst := by
        rw [List.map_cons, List.mem_cons]; exact Or.inl h.symm
      rw [if_pos h, if_pos hm, List.map_cons, List.map_cons]
    · have h2 : ¬ k = e.1 := fun hc => h hc.symm
      rw [if_neg h, List.map_cons, List.map_cons]
      by_cases h3 : k ∈ t.map Prod.fst
      · have hm : k ∈ e.1 :: t.map Prod.fst := List.mem_cons_of_mem _ h3
        rw [if_pos hm, ih, if_pos h3]
      · have hm : k ∉ e.1 :: t.map Prod.fst := by
          rw [List.mem_cons]
          rintro (hc | hc)
          exacts [h2 hc, h3 hc]
        rw [if_neg hm, ih, if_neg h3, List.cons_append]

theorem nodup_keys_upsert (k : κ) (i : ν) (u : ν → ν) (m : List (κ × ν))
    (h : (m.map Prod.fst).Nodup) : ((upsert k i u m).map Prod.fst).Nodup := by
  rw [keys_upsert]
  by_cases h2 : k ∈ m.map Prod.fst
  · simpa [h2] using h
  · simpa [h2] using List.Nodup.append h (List.nodup_singleton k) (by simpa using h2)

theorem applyRows_cons (key : R → κ) (ins : R → ν) (upd : R → ν → ν) (r : R)
    (rs : List R) (m : List (κ × ν)) :
    applyRows key ins upd (r :: rs) m =
      applyRows key ins upd rs (upsert (key r) (ins r) (upd r) m) := rfl

/-- The effect of a batch on the row stored under one key. -/
def applyKey (key : R → κ) (ins : R → ν) (upd : R → ν → ν) (k : κ) (rs : List R)
    (o : Option ν) : Option ν :=
  rs.foldl (fun acc r => if key r = k then some (acc.elim (ins r) (upd r)) else acc) o

theorem applyKey_cons (key : R → κ) (ins : R → ν) (upd : R → ν → ν) (k : κ)
    (r : R) (rs : List R) (o : Option ν) :
    applyKey key ins upd k (r :: rs) o =
      applyKey key ins upd k rs
        (if key r = k then some (o.elim (ins r) (upd r)) else o) := rfl

theorem lookup_applyRows (key : R → κ) (ins : R → ν) (upd : R → ν → ν) (k : κ)
    (rs : List R) (m : List (κ × ν)) :
    lookup k (applyRows key ins upd rs m) = applyKey key ins upd k rs (lookup k m) := by
  induction rs generalizing m with
  | nil => rfl
  | cons r t ih =>
    rw [applyRows_cons, ih, applyKey_cons]
    by_cases h : key r = k
    · rw [if_pos h, ← h, lookup_upsert_self]
    · rw [if_neg h, lookup_upsert_ne _ _ (fun hc => h hc.symm)]

theorem applyKey_isSome (key : R → κ) (ins : R → ν) (upd : R → ν → ν) (k : κ)
    (rs : List R) (o : Option ν) (h : o.isSome) :
    (applyKey key ins upd k rs o).isSome := by
  induction rs generalizing o with
  | nil => exact h
  | cons r t ih =>
    rw [applyKey_cons]
    by_cases h2 : key r = k
    · exact ih _ (by simp [h2])
    · simpa [h2] using ih _ h

theorem applyKey_isSome_of_mem (key : R → κ) (ins : R → ν) (upd : R → ν → ν)
    {k : κ} {r : R} {rs : List R} (hr : r ∈ rs) (hk : key r = k) (o : Option ν) :
    (applyKey key ins upd k rs o).isSome := by
  induction rs generalizing o with
  | nil => cases hr
  | cons a t ih =>
    rw [applyKey_cons]
    rcases List.mem_cons.mp hr with he | ht
    · subst he
      exact applyKey_isSome _ _ _ _ _ _ (by simp [hk])
    · exact ih ht _

theorem keys_applyRows (key : R → κ) (ins : R → ν) (upd : R → ν → ν)
    (rs : List R) (m : List (κ × ν)) (h : ∀ r ∈ rs, key r ∈ m.map Prod.fst) :
    (applyRows key ins upd rs m).map Prod.fst = m.map Prod.fst := by
  induction rs generalizing m with
  | nil => rfl
  | cons r t ih =>
    rw [applyRows_cons, ih, keys_upsert, if_pos (h r (List.mem_cons_self r t))]
    intro q hq
    rw [keys_upsert, if_pos (h r (List.mem_cons_self r t))]
    exact h q (List.mem_cons_of_mem r hq)

theorem nodup_keys_applyRows (key : R → κ) (ins : R → ν) (upd : R → ν → ν)
    (rs : List R) (m : List (κ × ν)) (h : (m.map Prod.fst).Nodup) :
    ((applyRows key ins upd rs m).map Prod.fst).Nodup := by
  induction rs generalizing m with
  | nil => exact h
  | cons r t ih => exact ih _ (nodup_keys_upsert _ _ _ _ h)

theorem assoc_ext (m1 m2 : List (κ × ν)) (hk : m1.map Prod.fst = m2.map Prod.fst)
    (hnd : (m1.map Prod.fst).Nodup) (hl : ∀ k, lookup k m1 = lookup k m2) :
    m1 = m2 := by
  induction m1 generalizing m2 with
  | nil =>
    cases m2 with
    | nil => rfl
    | cons f t2 => simp at hk
  | cons e t ih =>
    cases m2 with
    | nil => simp at hk
    | cons f t2 =>
      simp only [List.map_cons, List.cons.injEq] at hk
      obtain ⟨hk1, hk2⟩ := hk
      have hv : e.2 = f.2 := by
        have := hl e.1
        rw [lookup, lookup, if_pos rfl, if_pos hk1.symm] at this
        exact Option.some.inj this
      have hnt : e.1 ∉ t.map Prod.fst := (List.nodup_cons.mp hnd).1
      have ht : t = t2 := by
        refine ih t2 hk2 (List.nodup_cons.mp hnd).2 (fun k => ?_)
        by_cases hq : k = e.1
        · subst hq
          rw [(lookup_eq_none_iff _ _).mpr hnt,
            (lookup_eq_none_iff _ _).mpr (hk2 ▸ hnt)]
        · have := hl k
          rw [lookup, lookup, if_neg (fun hc => hq hc.symm),
            if_neg (fun hc => hq (hk1 ▸ hc).symm)] at this
          exact this
      have he : e = f := Prod.ext hk1 hv
      rw [he, ht]

theorem applyKey_eq_filter (key : R → κ) (ins : R → ν) (upd : R → ν → ν) (k : κ)
    (rs : List R) (o : Option ν) :
    applyKey key ins upd k rs o =
      applyKey key ins upd k (rs.filter (fun r => key r = k)) o := by
  induction rs generalizing o with
  | nil => rfl
  | cons r t ih =>
    rw [applyKey_cons]
    by_cases h : key r = k
    · rw [if_pos h]
      rw [show (r :: t).filter (fun r => decide (key r = k)) =
        r :: t.filter (fun r => decide (key r = k)) from by simp [List.filter, h]]
      rw [applyKey_cons, if_pos h]
      exact ih _
    · rw [if_neg h]
      rw [show (r :: t).filter (fun r => decide (key r = k)) =
        t.filter (fun r => decide (key r = k)) from by simp [List.filter, h]]
      exact ih _

end AssocList

/-! ### Idempotence of a batch of upserts

The update functions of all four tables overwrite a fixed set of columns
with values taken from the incoming row and keep the rest of the stored
row: `upd r (upd r2 v) = upd r v` and `upd r (ins r) = ins r`.  Under
these two laws, applying a batch twice equals applying it once. -/

section Idempotence

variable {R κ ν : Type} [DecidableEq κ]
variable {key : R → κ} {ins : R → ν} {upd : R → ν → ν}

theorem applyKey_allk_some (H1 : ∀ r r2 v, upd r (upd r2 v) = upd r v) {k : κ} :
    ∀ (r : R) (t : List R), (∀ x ∈ r :: t, key x = k) → ∀ a : ν,
      ∃ rl, (r :: t).getLast? = some rl ∧
        applyKey key ins upd k (r :: t) (some a) = some (upd rl a)
  | r, [], hall, a =>
    ⟨r, rfl, by
      rw [applyKey_cons, if_pos (hall r (List.mem_cons_self r []))]
      rfl⟩
  | r, r2 :: t, hall, a => by
    obtain ⟨rl, h1, h2⟩ := applyKey_allk_some H1 r2 t
      (fun x hx => hall x (List.mem_cons_of_mem r hx)) (upd r a)
    refine ⟨rl, ?_, ?_⟩
    · rw [List.getLast?_cons_cons]
      exact h1
    · rw [applyKey_cons, if_pos (hall r (List.mem_cons_self r (r2 :: t)))]
      have : (some a).elim (ins r) (upd r) = upd r a := rfl
      rw [this, h2, H1]

theorem applyKey_allk_none (H1 : ∀ r r2 v, upd r (upd r2 v) = upd r v)
    (H2 : ∀ r, upd r (ins r) = ins r) {k : κ} :
    ∀ (r : R) (t : List R), (∀ x ∈ r :: t, key x = k) →
      ∃ w rl, applyKey key ins upd k (r :: t) none = some w ∧
        (r :: t).getLast? = some rl ∧ upd rl w = w
  | r, [], hall =>
    ⟨ins r, r, by
      rw [applyKey_cons, if_pos (hall r (List.mem_cons_self r []))]
      rfl, rfl, H2 r⟩
  | r, r2 :: t, hall => by
    obtain ⟨rl, h1, h2⟩ := applyKey_allk_some H1 r2 t
      (fun x hx => hall x (List.mem_cons_of_mem r hx)) (ins r)
    refine ⟨upd rl (ins r), rl, ?_, ?_, ?_⟩
    · rw [applyKey_cons, if_pos (hall r (List.mem_cons_self r (r2 :: t)))]
      have : (none : Option ν).elim (ins r) (upd r) = ins r := rfl
      rw [this, h2]
    · rw [List.getLast?_cons_cons]
      exact h1
    · rw [H1]

theorem applyKey_idem (H1 : ∀ r r2 v, upd r (upd r2 v) = upd r v)
    (H2 : ∀ r, upd r (ins r) = ins r) (k : κ) (rs : List R) (o : Option ν) :
    applyKey key ins upd k rs (applyKey key ins upd k rs o) =
      applyKey key ins upd k rs o := by
  have he : ∀ p : Option ν, applyKey key ins upd k rs p =
      applyKey key ins upd k (rs.filter (fun r => key r = k)) p :=
    applyKey_eq_filter key ins upd k rs
  rw [he, he]
  cases hkr : rs.filter (fun r => key r = k) with
  | nil => rfl
  | cons r t =>
    have hall : ∀ x ∈ r :: t, key x = k := by
      intro x hx
      have hxf : x ∈ rs.filter (fun r => key r = k) := by rw [hkr]; exact hx
      have := List.of_mem_filter hxf
      exact of_decide_eq_true this
    cases o with
    | none =>
      obtain ⟨w, rl, hw, hl, hfix⟩ := applyKey_allk_none H1 H2 r t hall
      rw [hw]
      obtain ⟨rl2, hl2, happ⟩ := applyKey_allk_some H1 r t hall w
      rw [happ]
      have hre : rl2 = rl := by
        have := hl2.symm.trans hl
        exact Option.some.inj this
      rw [hre, hfix]
    | some a =>
      obtain ⟨rl, hl, happ⟩ := applyKey_allk_some H1 r t hall a
      rw [happ]
      obtain ⟨rl2, hl2, happ2⟩ := applyKey_allk_some H1 r t hall (upd rl a)
      rw [happ2]
      have hre : rl2 = rl := by
        have := hl2.symm.trans hl
        exact Option.some.inj this
      rw [hre, H1]

theorem applyRows_idem (H1 : ∀ r r2 v, upd r (upd r2 v) = upd r v)
    (H2 : ∀ r, upd r (ins r) = ins r) (rs : List R) (m : List (κ × ν))
    (hnd : (m.map Prod.fst).Nodup) :
    applyRows key ins upd rs (applyRows key ins upd rs m) =
      applyRows key ins upd rs m := by
  refine assoc_ext _ _ ?_ ?_ ?_
  · refine keys_applyRows key ins upd rs (applyRows key ins upd rs m) ?_
    intro r hr
    rw [← lookup_isSome_iff, lookup_applyRows]
    exact applyKey_isSome_of_mem key ins upd hr rfl _
  · exact nodup_keys_applyRows _ _ _ _ _ (nodup_keys_applyRows _ _ _ _ _ hnd)
  · intro k
    rw [lookup_applyRows, lookup_applyRows]
    exact applyKey_idem H1 H2 k rs _

end Idempotence

theorem Storage.eq_of_parts (a b : Storage) (hm : a.main = b.main)
    (hl : a.latest = b.latest) (hy : a.yoy = b.yoy)
    (hs : a.summary = b.summary) : a = b := by
  cases a
  cases b
  cases hm
  cases hl
  cases hy
  cases hs
  rfl

/-- Sample transformed row used for concrete instantiations. -/
def sampleClean (c i : String) (y : Int) (v : ℚ) : CleanRow :=
  { country_code := c
    country_name := c
    indicator_code := i
    indicator_name := i
    year := y
    value := v
    decade := decadeOf y
    period := periodOf y
    continent := continentOf c
    extracted_at := 0 }

/-- Sample raw row used for concrete instantiations. -/
def sampleRaw (c : Option String) (i : String) (y : Option Int) (v : Option ℚ) :
    RawRow :=
  { country_code := c
    country_name := "n"
    indicator_code := i
    indicator_name := i
    year := y
    value := v
    extracted_at := 0 }

/-- Empty database state. -/
def emptyStorage : Storage := ⟨[], [], [], []⟩

/-- Claim C1: applying the same transformed batch to storage twice, starting
from any storage state whose tables satisfy their unique-key constraints,
yields exactly the storage state produced by applying it once — so the
second load adds no rows to any of the four tables and leaves every stored
field value unchanged. -/
theorem c1_load_idempotent (df : List CleanRow) (s : Storage)
    (hnd : StorageKeysNodup s) :
    loadAll df (loadAll df s) = loadAll df s := by
  obtain ⟨h1, h2, h3, h4⟩ := hnd
  have hm : loadMainData df (loadMainData df s.main) = loadMainData df s.main := by
    unfold loadMainData
    refine applyRows_idem ?_ ?_ df s.main h1
    · intro r r2 v
      rfl
    · intro r
      rfl
  have hl : loadLatest (latestValues df) (loadLatest (latestValues df) s.latest) =
      loadLatest (latestValues df) s.latest := by
    unfold loadLatest
    refine applyRows_idem ?_ ?_ _ _ h2
    · intro r r2 v
      rfl
    · intro r
      rfl
  have hy : loadYoy (yoyChanges df) (loadYoy (yoyChanges df) s.yoy) =
      loadYoy (yoyChanges df) s.yoy := by
    unfold loadYoy
    refine applyRows_idem ?_ ?_ _ _ h3
    · intro r r2 v
      rfl
    · intro r
      rfl
  have hs : applySummary (summaryRows (loadMainData df s.main))
      (applySummary (summaryRows (loadMainData df s.main)) s.summary) =
      applySummary (summaryRows (loadMainData df s.main)) s.summary := by
    unfold applySummary
    refine applyRows_idem ?_ ?_ _ _ h4
    · intro r r2 v
      rfl
    · intro r
      rfl
  refine Storage.eq_of_parts _ _ ?_ ?_ ?_ ?_
  · exact hm
  · exact hl
  · exact hy
  · show applySummary (summaryRows (loadMainData df (loadMainData df s.main)))
        (applySummary (summaryRows (loadMainData df s.main)) s.summary) =
      applySummary (summaryRows (loadMainData df s.main)) s.summary
    rw [hm]
    exact hs

theorem c1_load_idempotent_witness :
    StorageKeysNodup emptyStorage ∧
      loadAll [sampleClean "IND" "NY.GDP.MKTP.CD" 2020 266,
          sampleClean "IND" "SP.POP.TOTL" 2021 99]
        (loadAll [sampleClean "IND" "NY.GDP.MKTP.CD" 2020 266,
            sampleClean "IND" "SP.POP.TOTL" 2021 99] emptyStorage) =
      loadAll [sampleClean "IND" "NY.GDP.MKTP.CD" 2020 266,
          sampleClean "IND" "SP.POP.TOTL" 2021 99] emptyStorage :=
  ⟨by decide, c1_load_idempotent _ _ (by decide)⟩

/-! ### Deduplication lemmas -/

theorem dedupByAux_nil {α κ : Type} [DecidableEq κ] (key : α → κ) (seen : List κ) :
    dedupByAux key seen [] = [] := rfl

theorem dedupByAux_cons {α κ : Type} [DecidableEq κ] (key : α → κ) (seen : List κ)
    (x : α) (t : List α) :
    dedupByAux key seen (x :: t) =
      if key x ∈ seen then dedupByAux key seen t
      else x :: dedupByAux key (key x :: seen) t := rfl

theorem mem_of_mem_dedupByAux {α κ : Type} [DecidableEq κ] (key : α → κ) :
    ∀ (seen : List κ) (l : List α) (a : α), a ∈ dedupByAux key seen l → a ∈ l
  | _, [], a, h => absurd h (List.not_mem_nil a)
  | seen, x :: t, a, h => by
    rw [dedupByAux_cons] at h
    by_cases hc : key x ∈ seen
    · rw [if_pos hc] at h
      exact List.mem_cons_of_mem x (mem_of_mem_dedupByAux key seen t a h)
    · rw [if_neg hc] at h
      rcases List.mem_cons.mp h with rfl | ht
      · exact List.mem_cons_self a t
      · exact List.mem_cons_of_mem x (mem_of_mem_dedupByAux key _ t a ht)

theorem dedupByAux_spec {α κ : Type} [DecidableEq κ] (key : α → κ) :
    ∀ (seen : List κ) (l : List α),
      ((dedupByAux key seen l).map key).Nodup ∧
        ∀ a ∈ dedupByAux key seen l, key a ∉ seen
  | _, [] => ⟨List.nodup_nil, fun a ha => absurd ha (List.not_mem_nil a)⟩
  | seen, x :: t => by
    rw [dedupByAux_cons]
    by_cases hc : key x ∈ seen
    · rw [if_pos hc]
      exact dedupByAux_spec key seen t
    · rw [if_neg hc]
      obtain ⟨hnd, hs⟩ := dedupByAux_spec key (key x :: seen) t
      constructor
      · rw [List.map_cons, List.nodup_cons]
        refine ⟨?_, hnd⟩
        intro hmem
        obtain ⟨b, hb, hkb⟩ := List.mem_map.mp hmem
        exact hs b hb (hkb ▸ List.mem_cons_self _ _)
      · intro a ha
        rcases List.mem_cons.mp ha with rfl | ht
        · exact hc
        · exact fun hsn => hs a ht (List.mem_cons_of_mem _ hsn)

theorem nodup_keys_dedupBy {α κ : Type} [DecidableEq κ] (key : α → κ) (l : List α) :
    ((dedupBy key l).map key).Nodup := (dedupByAux_spec key [] l).1

theorem mem_of_mem_dedupBy {α κ : Type} [DecidableEq κ] (key : α → κ) {l : List α}
    {a : α} (h : a ∈ dedupBy key l) : a ∈ l := mem_of_mem_dedupByAux key [] l a h

theorem dedupByAux_covers {α κ : Type} [DecidableEq κ] (key : α → κ) :
    ∀ (seen : List κ) (l : List α) (a : α), a ∈ l → key a ∉ seen →
      ∃ b ∈ dedupByAux key seen l, key b = key a
  | _, [], a, h, _ => absurd h (List.not_mem_nil a)
  | seen, x :: t, a, h, hns => by
    rw [dedupByAux_cons]
    by_cases hc : key x ∈ seen
    · rw [if_pos hc]
      rcases List.mem_cons.mp h with rfl | ht
      · exact absurd hc hns
      · exact dedupByAux_covers key seen t a ht hns
    · rw [if_neg hc]
      by_cases hk : key a = key x
      · exact ⟨x, List.mem_cons_self _ _, hk.symm⟩
      · rcases List.mem_cons.mp h with rfl | ht
        · exact absurd rfl hk
        · obtain ⟨b, hb, hkb⟩ := dedupByAux_covers key (key x :: seen) t a ht
            (by
              rw [List.mem_cons]
              rintro (h1 | h1)
              exacts [hk h1, hns h1])
          exact ⟨b, List.mem_cons_of_mem _ hb, hkb⟩

theorem dedupBy_covers {α κ : Type} [DecidableEq κ] (key : α → κ) {l : List α}
    {a : α} (h : a ∈ l) : ∃ b ∈ dedupBy key l, key b = key a :=
  dedupByAux_covers key [] l a h (List.not_mem_nil _)

/-! ### Facts about a successful transform -/

theorem transform_ok_elim {rows : List RawRow} {out : List CleanRow}
    (h : transform rows = Except.ok out) :
    out = (cleanedRaw rows).map enrichRow ∧
      (∀ r ∈ cleanedRaw rows, r.country_code.isSome) ∧
      (∀ r ∈ cleanedRaw rows, r.year.isSome) ∧
      (∀ r ∈ cleanedRaw rows, 2000 ≤ r.year.getD 0) := by
  unfold transform at h
  split at h
  case isFalse => cases h
  case isTrue h1 =>
    split at h
    case isFalse => cases h
    case isTrue h2 =>
      split at h
      case isFalse => cases h
      case isTrue h3 =>
        refine ⟨(Except.ok.inj h).symm, ?_, ?_, ?_⟩
        · intro r hr
          exact List.all_eq_true.mp h1 r hr
        · intro r hr
          exact List.all_eq_true.mp h2 r hr
        · intro r hr
          exact of_decide_eq_true (List.all_eq_true.mp h3 r hr)

/-- Claim C3, counterexample: an input whose only row has year 1999 but a
missing value does not make `transform` fail — the row is dropped by
`dropna(subset=["value"])` before the assertions run, and the transform
succeeds with empty output. -/
theorem c3_counterexample :
    (∃ r ∈ [sampleRaw (some "IND") "NY.GDP.MKTP.CD" (some 1999) none],
        r.year = some 1999) ∧
      transform [sampleRaw (some "IND") "NY.GDP.MKTP.CD" (some 1999) none] =
        Except.ok [] := by decide

/-- Claim C3 (amended): if any row that survives deduplication and
null-value removal has a null `country_code`, a null `year`, or a year
below the floor 2000, then `transform` fails with a `ValidationError`
(a failing assertion) and produces no output; in particular an input
consisting of a row with year 1999 and a present value fails. -/
theorem c3_validation_fatal (rows : List RawRow)
    (h : ∃ r ∈ cleanedRaw rows,
      r.country_code = none ∨ r.year = none ∨ ∃ y, r.year = some y ∧ y < 2000) :
    ∃ e, transform rows = Except.error e := by
  obtain ⟨r, hr, hbad⟩ := h
  unfold transform
  split
  case isFalse => exact ⟨_, rfl⟩
  case isTrue h1 =>
    split
    case isFalse => exact ⟨_, rfl⟩
    case isTrue h2 =>
      split
      case isFalse => exact ⟨_, rfl⟩
      case isTrue h3 =>
        exfalso
        rcases hbad with hb | hb | ⟨y, hy, hlt⟩
        · have hx := List.all_eq_true.mp h1 r hr
          rw [hb] at hx
          simp at hx
        · have hx := List.all_eq_true.mp h2 r hr
          rw [hb] at hx
          simp at hx
        · have hx := of_decide_eq_true (List.all_eq_true.mp h3 r hr)
          rw [hy] at hx
          simp only [Option.getD_some] at hx
          omega

theorem c3_validation_fatal_witness :
    (∃ r ∈ cleanedRaw [sampleRaw (some "IND") "NY.GDP.MKTP.CD" (some 1999) (some 5)],
        r.country_code = none ∨ r.year = none ∨
          ∃ y, r.year = some y ∧ y < 2000) ∧
      ∃ e, transform [sampleRaw (some "IND") "NY.GDP.MKTP.CD" (some 1999) (some 5)] =
        Except.error e :=
  ⟨by decide, c3_validation_fatal _ (by decide)⟩

/-- Claim C6, counterexample: an input containing the single triple
(IND, NY.GDP.MKTP.CD, 2020) — on a row with a missing value — produces an
output with no row at all for that triple, so the output does not contain
exactly one row per distinct input triple. -/
theorem c6_counterexample :
    (∃ r ∈ [sampleRaw (some "IND") "NY.GDP.MKTP.CD" (some 2020) none],
        rawKey r = (some "IND", "NY.GDP.MKTP.CD", some 2020)) ∧
      transform [sampleRaw (some "IND") "NY.GDP.MKTP.CD" (some 2020) none] =
        Except.ok [] := by decide

/-- Claim C6 (amended): whenever `transform` succeeds, its output contains
exactly one row per distinct `(entity, metric, year)` triple among the
rows that survive deduplication (first occurrence retained) and
null-value removal: the output keys are pairwise distinct, and a triple
appears in the output exactly when some surviving row carries it.  For
inputs in which every row has a present value this is exactly one output
row per distinct triple of the input. -/
theorem c6_dedup (rows : List RawRow) (out : List CleanRow)
    (h : transform rows = Except.ok out) :
    (out.map mainKeyOf).Nodup ∧
      ∀ c i y, (c, i, y) ∈ out.map mainKeyOf ↔
        ∃ r ∈ cleanedRaw rows,
          r.country_code = some c ∧ r.indicator_code = i ∧ r.year = some y := by
  obtain ⟨hout, hcc, hyy, _⟩ := transform_ok_elim h
  subst hout
  have hraw : ((cleanedRaw rows).map rawKey).Nodup := by
    have hsub : List.Sublist ((cleanedRaw rows).map rawKey)
        ((dropDuplicates rows).map rawKey) :=
      (List.filter_sublist (dropDuplicates rows)).map rawKey
    exact (nodup_keys_dedupBy rawKey rows).sublist hsub
  constructor
  · rw [List.map_map]
    have hpair : (cleanedRaw rows).Pairwise (fun a b => rawKey a ≠ rawKey b) :=
      (List.pairwise_map.mp hraw)
    have hgoal : (cleanedRaw rows).Pairwise
        (fun a b => (mainKeyOf ∘ enrichRow) a ≠ (mainKeyOf ∘ enrichRow) b) := by
      refine List.Pairwise.imp_of_mem ?_ hpair
      intro a b ha hb hne heq
      apply hne
      obtain ⟨ca, hca⟩ := Option.isSome_iff_exists.mp (hcc a ha)
      obtain ⟨cb, hcb⟩ := Option.isSome_iff_exists.mp (hcc b hb)
      obtain ⟨ya, hya⟩ := Option.isSome_iff_exists.mp (hyy a ha)
      obtain ⟨yb, hyb⟩ := Option.isSome_iff_exists.mp (hyy b hb)
      have ha2 : (mainKeyOf ∘ enrichRow) a = (ca, a.indicator_code, ya) := by
        simp [mainKeyOf, enrichRow, hca, hya]
      have hb2 : (mainKeyOf ∘ enrichRow) b = (cb, b.indicator_code, yb) := by
        simp [mainKeyOf, enrichRow, hcb, hyb]
      rw [ha2, hb2] at heq
      simp only [Prod.mk.injEq] at heq
      obtain ⟨e1, e2, e3⟩ := heq
      unfold rawKey
      rw [hca, hcb, hya, hyb, e1, e2, e3]
    exact List.pairwise_map.mpr hgoal
  · intro c i y
    rw [List.map_map, List.mem_map]
    constructor
    · rintro ⟨r, hr, he⟩
      obtain ⟨ca, hca⟩ := Option.isSome_iff_exists.mp (hcc r hr)
      obtain ⟨ya, hya⟩ := Option.isSome_iff_exists.mp (hyy r hr)
      have h2 : (mainKeyOf ∘ enrichRow) r = (ca, r.indicator_code, ya) := by
        simp [mainKeyOf, enrichRow, hca, hya]
      rw [h2] at he
      simp only [Prod.mk.injEq] at he
      obtain ⟨e1, e2, e3⟩ := he
      exact ⟨r, hr, by rw [hca, e1], by rw [e2], by rw [hya, e3]⟩
    · rintro ⟨r, hr, h1, h2, h3⟩
      refine ⟨r, hr, ?_⟩
      simp [mainKeyOf, enrichRow, h1, h2, h3]

/-! ### Sorting lemmas -/

theorem sortByYear_perm (l : List CleanRow) : (sortByYear l).Perm l :=
  List.perm_insertionSort yearle l

theorem sortByYear_sorted (l : List CleanRow) : (sortByYear l).Pairwise yearle :=
  List.sorted_insertionSort yearle l

theorem getLast?_mem_of_eq {α : Type} {l : List α} {a : α}
    (h : l.getLast? = some a) : a ∈ l := by
  obtain ⟨hne, he⟩ := List.mem_getLast?_eq_getLast (show a ∈ l.getLast? from h)
  exact he ▸ List.getLast_mem hne

theorem getLast?_of_ne_nil {α : Type} {l : List α} (h : l ≠ []) :
    ∃ a, l.getLast? = some a :=
  ⟨l.getLast h, List.getLast?_eq_getLast_of_ne_nil h⟩

/-- In a list sorted ascending by year, every element's year is bounded by
the last element's year. -/
theorem year_le_getLast : ∀ {l : List CleanRow}, l.Pairwise yearle →
    ∀ {r : CleanRow}, l.getLast? = some r → ∀ x ∈ l, x.year ≤ r.year
  | [], _, _, hr => by cases hr
  | [a], _, r, hr => by
    have : a = r := Option.some.inj hr
    subst this
    intro x hx
    rcases List.mem_cons.mp hx with rfl | hx
    · exact le_refl _
    · cases hx
  | a :: b :: t, hs, r, hr => by
    rw [List.getLast?_cons_cons] at hr
    intro x hx
    rcases List.mem_cons.mp hx with rfl | hx
    · have hrmem : r ∈ b :: t := getLast?_mem_of_eq hr
      exact (List.pairwise_cons.mp hs).1 r hrmem
    · exact year_le_getLast (List.pairwise_cons.mp hs).2 hr x hx

/-- The retained row of a nonempty group: it belongs to the group and its
year dominates the group. -/
theorem groupLast_spec (rows : List CleanRow) (k : String × String)
    (hne : ∃ r ∈ rows, ckey r = k) :
    ∃ r, groupLast rows k = some r ∧ r ∈ rows ∧ ckey r = k ∧
      ∀ x ∈ rows, ckey x = k → x.year ≤ r.year := by
  obtain ⟨r0, hr0, hk0⟩ := hne
  have hmem0 : r0 ∈ (sortByYear rows).filter (fun r => ckey r = k) :=
    List.mem_filter_of_mem ((sortByYear_perm rows).mem_iff.mpr hr0)
      (decide_eq_true hk0)
  obtain ⟨r, hr⟩ :=
    getLast?_of_ne_nil (List.ne_nil_of_mem hmem0)
  have hrf : r ∈ (sortByYear rows).filter (fun r => ckey r = k) :=
    getLast?_mem_of_eq hr
  have hsorted : ((sortByYear rows).filter (fun r => ckey r = k)).Pairwise yearle :=
    (sortByYear_sorted rows).sublist (List.filter_sublist _)
  refine ⟨r, hr, ?_, ?_, ?_⟩
  · exact (sortByYear_perm rows).mem_iff.mp (List.mem_filter.mp hrf).1
  · exact of_decide_eq_true (List.mem_filter.mp hrf).2
  · intro x hx hkx
    exact year_le_getLast hsorted hr x
      (List.mem_filter_of_mem ((sortByYear_perm rows).mem_iff.mpr hx)
        (decide_eq_true hkx))

/-- With a unique maximum year in the group, the retained row is that
maximum row, whatever the order of the input rows. -/
theorem groupLast_unique_max (rows : List CleanRow) (k : String × String)
    (rStar : CleanRow) (hmem : rStar ∈ rows) (hk : ckey rStar = k)
    (huni : ∀ x ∈ rows, ckey x = k → x ≠ rStar → x.year < rStar.year) :
    groupLast rows k = some rStar := by
  obtain ⟨r, hgl, hrmem, hrk, hmax⟩ := groupLast_spec rows k ⟨rStar, hmem, hk⟩
  by_cases he : r = rStar
  · rw [hgl, he]
  · have h1 : r.year < rStar.year := huni r hrmem hrk he
    have h2 : rStar.year ≤ r.year := hmax rStar hmem hk
    omega

/-- Claim C5, counterexample: with a duplicated maximum year the retained
row is the last such row after the stable ascending sort, not the first,
and it depends on the input order. -/
theorem c5_counterexample :
    latestValues [sampleClean "IND" "SP.POP.TOTL" 2020 1,
        sampleClean "IND" "SP.POP.TOTL" 2020 2] =
      [sampleClean "IND" "SP.POP.TOTL" 2020 2] ∧
    latestValues [sampleClean "IND" "SP.POP.TOTL" 2020 2,
        sampleClean "IND" "SP.POP.TOTL" 2020 1] =
      [sampleClean "IND" "SP.POP.TOTL" 2020 1] ∧
    sampleClean "IND" "SP.POP.TOTL" 2020 1 ≠
      sampleClean "IND" "SP.POP.TOTL" 2020 2 := by decide

/-- Claim C5 (amended): for every group present in the dataset the
latest-values view contains the group's retained row, which has the
maximum year of the group; when the maximum year is unique the retained
row is exactly that row regardless of the order of the input rows; when
the maximum year is duplicated the retained row is the last such row
after the stable ascending sort by year (see `c5_counterexample`), not
the first. -/
theorem c5_latest_values (rows : List CleanRow) (k : String × String) :
    ((∃ r ∈ rows, ckey r = k) →
      ∃ r, groupLast rows k = some r ∧ r ∈ latestValues rows ∧ r ∈ rows ∧
        ckey r = k ∧ ∀ x ∈ rows, ckey x = k → x.year ≤ r.year) ∧
    ∀ rStar ∈ rows, ckey rStar = k →
      (∀ x ∈ rows, ckey x = k → x ≠ rStar → x.year < rStar.year) →
      ∀ rows2 : List CleanRow, rows.Perm rows2 →
        groupLast rows2 k = some rStar := by
  constructor
  · intro hne
    obtain ⟨r, h1, h2, h3, h4⟩ := groupLast_spec rows k hne
    refine ⟨r, h1, ?_, h2, h3, h4⟩
    obtain ⟨r0, hr0, hk0⟩ := hne
    have hkm : k ∈ rows.map ckey := List.mem_map.mpr ⟨r0, hr0, hk0⟩
    obtain ⟨b, hb, hbk⟩ := dedupBy_covers id hkm
    have hbe : b = k := hbk
    subst hbe
    exact List.mem_filterMap.mpr ⟨b, hb, h1⟩
  · intro rStar hmem hk huni rows2 hperm
    refine groupLast_unique_max rows2 k rStar (hperm.mem_iff.mp hmem) hk ?_
    intro x hx hkx hne2
    exact huni x (hperm.mem_iff.mpr hx) hkx hne2

theorem c5_latest_values_witness :
    groupLast [sampleClean "IND" "SP.POP.TOTL" 2018 3,
        sampleClean "IND" "SP.POP.TOTL" 2020 2,
        sampleClean "IND" "SP.POP.TOTL" 2015 1] ("IND", "SP.POP.TOTL") =
      some (sampleClean "IND" "SP.POP.TOTL" 2020 2) :=
  (c5_latest_values [sampleClean "IND" "SP.POP.TOTL" 2015 1,
      sampleClean "IND" "SP.POP.TOTL" 2020 2,
      sampleClean "IND" "SP.POP.TOTL" 2018 3] ("IND", "SP.POP.TOTL")).2
    (sampleClean "IND" "SP.POP.TOTL" 2020 2) (by decide) (by decide) (by decide)
    _ (by decide)

/-! ### The year-over-year view against its specification -/

theorem map_congr_mem {α β : Type} {f g : α → β} :
    ∀ {l : List α}, (∀ a ∈ l, f a = g a) → l.map f = l.map g
  | [], _ => rfl
  | x :: t, h => by
    rw [List.map_cons, List.map_cons, h x (List.mem_cons_self _ _),
      map_congr_mem (fun a ha => h a (List.mem_cons_of_mem _ ha))]

theorem filterMap_congr_mem {α β : Type} {f g : α → Option β} :
    ∀ {l : List α}, (∀ a ∈ l, f a = g a) → l.filterMap f = l.filterMap g
  | [], _ => rfl
  | x :: t, h => by
    rw [List.filterMap_cons, List.filterMap_cons, h x (List.mem_cons_self _ _),
      filterMap_congr_mem (fun a ha => h a (List.mem_cons_of_mem _ ha))]

/-- One step of the maximum-year scan over rows. -/
def maxStep (acc : Option CleanRow) (x : CleanRow) : Option CleanRow :=
  match acc with
  | none => some x
  | some a => if a.year < x.year then some x else some a

/-- The row with the greatest year in a list of rows; an earlier row wins a
tie, and the lists this is applied to have pairwise-distinct years. -/
def maxCleanByYear (l : List CleanRow) : Option CleanRow := l.foldl maxStep none

theorem foldl_maxStep_spec : ∀ (l : List CleanRow) (a : CleanRow),
    ∃ p, l.foldl maxStep (some a) = some p ∧ (p = a ∨ p ∈ l) ∧
      a.year ≤ p.year ∧ ∀ x ∈ l, x.year ≤ p.year
  | [], a => ⟨a, rfl, Or.inl rfl, le_refl _, fun x hx => absurd hx (List.not_mem_nil x)⟩
  | x :: t, a => by
    rw [List.foldl_cons]
    by_cases h : a.year < x.year
    · have hstep : maxStep (some a) x = some x := by
        show (if a.year < x.year then some x else some a) = some x
        rw [if_pos h]
      rw [hstep]
      obtain ⟨p, h1, h2, h3, h4⟩ := foldl_maxStep_spec t x
      refine ⟨p, h1, ?_, by omega, ?_⟩
      · rcases h2 with rfl | h2
        · exact Or.inr (List.mem_cons_self _ _)
        · exact Or.inr (List.mem_cons_of_mem _ h2)
      · intro y hy
        rcases List.mem_cons.mp hy with rfl | hy
        · exact h3
        · exact h4 y hy
    · have hstep : maxStep (some a) x = some a := by
        show (if a.year < x.year then some x else some a) = some a
        rw [if_neg h]
      rw [hstep]
      obtain ⟨p, h1, h2, h3, h4⟩ := foldl_maxStep_spec t a
      refine ⟨p, h1, ?_, h3, ?_⟩
      · rcases h2 with rfl | h2
        · exact Or.inl rfl
        · exact Or.inr (List.mem_cons_of_mem _ h2)
      · intro y hy
        rcases List.mem_cons.mp hy with rfl | hy
        · omega
        · exact h4 y hy

theorem maxCleanByYear_spec {l : List CleanRow} {p : CleanRow}
    (h : maxCleanByYear l = some p) : p ∈ l ∧ ∀ x ∈ l, x.year ≤ p.year := by
  cases l with
  | nil => cases h
  | cons x t =>
    have he : maxCleanByYear (x :: t) = t.foldl maxStep (some x) := rfl
    rw [he] at h
    obtain ⟨p2, h1, h2, h3, h4⟩ := foldl_maxStep_spec t x
    rw [h1] at h
    obtain rfl := Option.some.inj h
    constructor
    · rcases h2 with rfl | h2
      · exact List.mem_cons_self _ _
      · exact List.mem_cons_of_mem _ h2
    · intro y hy
      rcases List.mem_cons.mp hy with rfl | hy
      · exact h3
      · exact h4 y hy

theorem maxCleanByYear_eq_none {l : List CleanRow} :
    maxCleanByYear l = none ↔ l = [] := by
  cases l with
  | nil => exact iff_of_true rfl rfl
  | cons x t =>
    constructor
    · intro h
      have he : maxCleanByYear (x :: t) = t.foldl maxStep (some x) := rfl
      rw [he] at h
      obtain ⟨p2, h1, _, _, _⟩ := foldl_maxStep_spec t x
      rw [h1] at h
      cases h
    · intro h
      cases h

theorem maxCleanByYear_perm {l1 l2 : List CleanRow} (hperm : l1.Perm l2)
    (hnd : (l1.map (fun r => r.year)).Nodup) :
    maxCleanByYear l1 = maxCleanByYear l2 := by
  cases h1 : maxCleanByYear l1 with
  | none =>
    have he : l1 = [] := maxCleanByYear_eq_none.mp h1
    subst he
    have he2 : l2 = [] := hperm.symm.eq_nil
    rw [he2]
    exact rfl
  | some p =>
    obtain ⟨hmem, hmax⟩ := maxCleanByYear_spec h1
    cases h2 : maxCleanByYear l2 with
    | none =>
      have he2 : l2 = [] := maxCleanByYear_eq_none.mp h2
      subst he2
      have he : l1 = [] := hperm.eq_nil
      subst he
      cases hmem
    | some q =>
      obtain ⟨hmem2, hmax2⟩ := maxCleanByYear_spec h2
      have hq1 : q ∈ l1 := hperm.mem_iff.mpr hmem2
      have hy1 : p.year ≤ q.year := hmax2 p (hperm.mem_iff.mp hmem)
      have hy2 : q.year ≤ p.year := hmax q hq1
      have hpq : p = q :=
        List.inj_on_of_nodup_map hnd hmem hq1 (by omega)
      rw [hpq]

theorem maxCleanByYear_sorted : ∀ {l : List CleanRow},
    l.Pairwise (fun a b => a.year < b.year) → maxCleanByYear l = l.getLast?
  | [], _ => rfl
  | [_], _ => rfl
  | x :: y :: u, hs => by
    have hxy : x.year < y.year :=
      (List.pairwise_cons.mp hs).1 y (List.mem_cons_self _ _)
    have he : maxCleanByYear (x :: y :: u) = (y :: u).foldl maxStep (some x) := rfl
    rw [he, List.foldl_cons]
    have hstep : maxStep (some x) y = some y := by
      show (if x.year < y.year then some y else some x) = some y
      rw [if_pos hxy]
    rw [hstep, List.getLast?_cons_cons]
    exact maxCleanByYear_sorted (List.pairwise_cons.mp hs).2

/-- Specification side of claim C2, for one group: one output row for each
row of the group with a chronologically preceding present year, whose
change is computed against the row of the immediately preceding present
year (the greatest present year below it), listed ascending by year. -/
def yoySpecGroup (g : List CleanRow) : List YoyRow :=
  (sortByYear g).filterMap (fun b =>
    match maxCleanByYear (g.filter (fun x => x.year < b.year)) with
    | none => none
    | some p => some (mkYoy b p))

/-- Specification side of claim C2 over the whole dataset. -/
def yoySpecAll (rows : List CleanRow) : List YoyRow :=
  ((dedupBy id (rows.map ckey)).map (fun k => yoySpecGroup (groupRows rows k))).flatten

theorem pctChain_context : ∀ (s pre : List CleanRow),
    (pre ++ s).Pairwise (fun a b => a.year < b.year) →
    s.filterMap (fun b =>
        match maxCleanByYear ((pre ++ s).filter (fun x => x.year < b.year)) with
        | none => none
        | some p => some (mkYoy b p)) =
      pctChain (match pre.getLast? with | none => s | some p => p :: s)
  | [], pre, _ => by
    cases pre.getLast? with
    | none => rfl
    | some p => rfl
  | r :: t, pre, hs => by
    have hpre_lt : ∀ p ∈ pre, p.year < r.year := fun p hp =>
      (List.pairwise_append.mp hs).2.2 p hp r (List.mem_cons_self _ _)
    have ht_gt : ∀ x ∈ t, r.year < x.year := fun x hx =>
      (List.pairwise_cons.mp (List.pairwise_append.mp hs).2.1).1 x hx
    have hfilter : (pre ++ r :: t).filter (fun x => x.year < r.year) = pre := by
      rw [List.filter_append]
      have h1 : pre.filter (fun x => x.year < r.year) = pre :=
        List.filter_eq_self.mpr (fun a ha => decide_eq_true (hpre_lt a ha))
      have h2 : (r :: t).filter (fun x => x.year < r.year) = [] := by
        rw [List.filter_eq_nil_iff]
        intro a ha
        rcases List.mem_cons.mp ha with rfl | ha
        · simp
        · have := ht_gt a ha
          simp only [decide_eq_true_eq]
          omega
      rw [h1, h2, List.append_nil]
    have hfr : (match maxCleanByYear
          ((pre ++ r :: t).filter (fun x => x.year < r.year)) with
        | none => none
        | some p => some (mkYoy r p)) =
        (match pre.getLast? with
        | none => none
        | some p => some (mkYoy r p)) := by
      rw [hfilter, maxCleanByYear_sorted (List.pairwise_append.mp hs).1]
    have hs2 : ((pre ++ [r]) ++ t).Pairwise (fun a b => a.year < b.year) := by
      rw [List.append_assoc, List.singleton_append]
      exact hs
    have hIH := pctChain_context t (pre ++ [r]) hs2
    rw [List.getLast?_concat, List.append_assoc, List.singleton_append] at hIH
    simp only [List.filterMap_cons]
    rw [hfr]
    cases pre.getLast? with
    | none => exact hIH
    | some p =>
      show mkYoy r p :: t.filterMap _ = pctChain (p :: r :: t)
      rw [hIH]
      exact rfl

/-- The per-group output of the source's `pct_change` equals the
specification-side view of the group, for any group listing with
pairwise-distinct years. -/
theorem pctChain_eq_spec (g s : List CleanRow) (hperm : s.Perm g)
    (hsorted : s.Pairwise yearle)
    (hnd : (g.map (fun r => r.year)).Nodup) :
    pctChain s = yoySpecGroup g := by
  have hnds : (s.map (fun r => r.year)).Nodup := ((hperm.map _).nodup_iff).mpr hnd
  have hnes : s.Pairwise (fun a b => a.year ≠ b.year) := List.pairwise_map.mp hnds
  have hstrict : s.Pairwise (fun a b => a.year < b.year) :=
    (hsorted.and hnes).imp (fun h => lt_of_le_of_ne h.1 h.2)
  haveI : IsAntisymm CleanRow (fun a b => a.year < b.year) :=
    ⟨fun _ _ h1 h2 => (lt_irrefl _ (lt_trans h1 h2)).elim⟩
  have hseq : sortByYear g = s := by
    have hndg : ((sortByYear g).map (fun r => r.year)).Nodup :=
      (((sortByYear_perm g).map _).nodup_iff).mpr hnd
    have hneg : (sortByYear g).Pairwise (fun a b => a.year ≠ b.year) :=
      List.pairwise_map.mp hndg
    have hstrictg : (sortByYear g).Pairwise (fun a b => a.year < b.year) :=
      ((sortByYear_sorted g).and hneg).imp (fun h => lt_of_le_of_ne h.1 h.2)
    exact List.eq_of_perm_of_sorted ((sortByYear_perm g).trans hperm.symm)
      hstrictg hstrict
  unfold yoySpecGroup
  rw [hseq]
  have hcongr : ∀ b ∈ s,
      (match maxCleanByYear (g.filter (fun x => x.year < b.year)) with
        | none => none
        | some p => some (mkYoy b p)) =
      (match maxCleanByYear (s.filter (fun x => x.year < b.year)) with
        | none => none
        | some p => some (mkYoy b p)) := by
    intro b _
    have hp : (g.filter (fun x => x.year < b.year)).Perm
        (s.filter (fun x => x.year < b.year)) := hperm.symm.filter _
    have hndf : ((g.filter (fun x => x.year < b.year)).map (fun r => r.year)).Nodup :=
      hnd.sublist ((List.filter_sublist g).map _)
    rw [maxCleanByYear_perm hp hndf]
  rw [filterMap_congr_mem hcongr]
  have hctx := pctChain_context s [] (by rw [List.nil_append]; exact hstrict)
  rw [List.nil_append] at hctx
  exact hctx.symm

/-- Years are pairwise distinct inside every group when the
`(group key, year)` pairs of the dataset are pairwise distinct. -/
theorem group_years_nodup (rows : List CleanRow) (k : String × String)
    (hkeys : (rows.map (fun r => (ckey r, r.year))).Nodup) :
    ((groupRows rows k).map (fun r => r.year)).Nodup := by
  have h1 : ((groupRows rows k).map (fun r => (ckey r, r.year))).Nodup :=
    hkeys.sublist ((List.filter_sublist rows).map _)
  have h2 : (groupRows rows k).map (fun r => (ckey r, r.year)) =
      (groupRows rows k).map (fun r => (k, r.year)) :=
    map_congr_mem (fun r hr => by
      rw [of_decide_eq_true (List.mem_filter.mp hr).2])
  rw [h2] at h1
  have h3 : (groupRows rows k).map (fun r => (k, r.year)) =
      ((groupRows rows k).map (fun r => r.year)).map (fun y => (k, y)) := by
    rw [List.map_map]
    exact rfl
  rw [h3] at h1
  exact List.Nodup.of_map _ h1

/-- The three-row single-group dataset of the claim's example. -/
def yoyExample : List CleanRow :=
  [sampleClean "IND" "NY.GDP.MKTP.CD" 2010 100,
   sampleClean "IND" "NY.GDP.MKTP.CD" 2011 110,
   sampleClean "IND" "NY.GDP.MKTP.CD" 2012 121]

/-- Claim C2: on a dataset with pairwise-distinct `(group, year)` pairs (as
produced by the deduplicating transform), the year-over-year view equals
its specification: per group, one row for every year with a
chronologically preceding present year (rows with no prior present year
are excluded), with the change computed against the immediately preceding
present year as (value − prev) / prev × 100; in particular, for values
[100, 110, 121] at years [2010, 2011, 2012] the output rows are
(2011, 110, 10) and (2012, 121, 10). -/
theorem c2_yoy (rows : List CleanRow)
    (hkeys : (rows.map (fun r => (ckey r, r.year))).Nodup) :
    yoyChanges rows = yoySpecAll rows ∧
      yoyChanges yoyExample =
        [⟨"IND", "NY.GDP.MKTP.CD", 2011, 110, 10⟩,
         ⟨"IND", "NY.GDP.MKTP.CD", 2012, 121, 10⟩] := by
  constructor
  · unfold yoyChanges yoySpecAll
    refine congrArg List.flatten ?_
    refine map_congr_mem ?_
    intro k _
    exact pctChain_eq_spec (groupRows rows k)
      ((sortByYear rows).filter (fun r => ckey r = k))
      ((sortByYear_perm rows).filter _)
      ((sortByYear_sorted rows).sublist (List.filter_sublist _))
      (group_years_nodup rows k hkeys)
  · have h1 : yoyChanges yoyExample =
        [mkYoy (sampleClean "IND" "NY.GDP.MKTP.CD" 2011 110)
            (sampleClean "IND" "NY.GDP.MKTP.CD" 2010 100),
          mkYoy (sampleClean "IND" "NY.GDP.MKTP.CD" 2012 121)
            (sampleClean "IND" "NY.GDP.MKTP.CD" 2011 110)] := rfl
    rw [h1]
    norm_num [mkYoy, sampleClean]

theorem c2_yoy_witness :
    (yoyExample.map (fun r => (ckey r, r.year))).Nodup ∧
      (yoyChanges yoyExample = yoySpecAll yoyExample ∧
        yoyChanges yoyExample =
          [⟨"IND", "NY.GDP.MKTP.CD", 2011, 110, 10⟩,
           ⟨"IND", "NY.GDP.MKTP.CD", 2012, 121, 10⟩]) :=
  ⟨by decide, c2_yoy yoyExample (by decide)⟩

/-! ### Remaining claims -/

theorem c6_dedup_witness :
    transform [sampleRaw (some "IND") "NY.GDP.MKTP.CD" (some 2020) (some 5),
        sampleRaw (some "IND") "NY.GDP.MKTP.CD" (some 2020) (some 7)] =
      Except.ok [enrichRow (sampleRaw (some "IND") "NY.GDP.MKTP.CD" (some 2020) (some 5))] ∧
      (([enrichRow (sampleRaw (some "IND") "NY.GDP.MKTP.CD" (some 2020) (some 5))].map
          mainKeyOf).Nodup ∧
        ∀ c i y, (c, i, y) ∈
            [enrichRow (sampleRaw (some "IND") "NY.GDP.MKTP.CD" (some 2020) (some 5))].map
              mainKeyOf ↔
          ∃ r ∈ cleanedRaw [sampleRaw (some "IND") "NY.GDP.MKTP.CD" (some 2020) (some 5),
              sampleRaw (some "IND") "NY.GDP.MKTP.CD" (some 2020) (some 7)],
            r.country_code = some c ∧ r.indicator_code = i ∧ r.year = some y) :=
  ⟨rfl, c6_dedup _ _ rfl⟩

/-- Claim C4, counterexample: the source's bins are right-inclusive
(pandas default), so year 2010 is labelled "2000s", not "2010-2015", and
year 2015 is labelled "2010-2015", not "2015-2020". -/
theorem c4_counterexample :
    periodOf 2010 = some "2000s" ∧ periodOf 2010 ≠ some "2010-2015" ∧
      periodOf 2015 = some "2010-2015" ∧ periodOf 2015 ≠ some "2015-2020" := by
  decide

/-- Claim C4 (amended): the period buckets are right-inclusive with the
first bin also closed on the left: [2000, 2010] maps to "2000s",
(2010, 2015] to "2010-2015", (2015, 2020] to "2015-2020", (2020, 2025] to
"2020s", and a year outside all bins is left unclassified without making
the transform fail (shown for year 2026, which transforms successfully
with no period label). -/
theorem c4_period_buckets (y : Int) :
    (2000 ≤ y ∧ y ≤ 2010 → periodOf y = some "2000s") ∧
    (2010 < y ∧ y ≤ 2015 → periodOf y = some "2010-2015") ∧
    (2015 < y ∧ y ≤ 2020 → periodOf y = some "2015-2020") ∧
    (2020 < y ∧ y ≤ 2025 → periodOf y = some "2020s") ∧
    (y < 2000 ∨ 2025 < y → periodOf y = none) ∧
    transform [sampleRaw (some "IND") "SP.POP.TOTL" (some 2026) (some 1)] =
      Except.ok [enrichRow (sampleRaw (some "IND") "SP.POP.TOTL" (some 2026) (some 1))] ∧
    (enrichRow (sampleRaw (some "IND") "SP.POP.TOTL" (some 2026) (some 1))).period =
      none := by
  refine ⟨?_, ?_, ?_, ?_, ?_, rfl, by decide⟩
  · intro h
    unfold periodOf
    rw [if_pos h]
  · intro h
    unfold periodOf
    rw [if_neg (by omega), if_pos h]
  · intro h
    unfold periodOf
    rw [if_neg (by omega), if_neg (by omega), if_pos h]
  · intro h
    unfold periodOf
    rw [if_neg (by omega), if_neg (by omega), if_neg (by omega), if_pos h]
  · intro h
    unfold periodOf
    rcases h with h | h
    · rw [if_neg (by omega), if_neg (by omega), if_neg (by omega), if_neg (by omega)]
    · rw [if_neg (by omega), if_neg (by omega), if_neg (by omega), if_neg (by omega)]

theorem c4_period_buckets_witness :
    periodOf 2005 = some "2000s" ∧ periodOf 2015 = some "2010-2015" :=
  ⟨(c4_period_buckets 2005).1 (by omega), (c4_period_buckets 2015).2.1 (by omega)⟩

theorem applyKey_main_desc (k : MainKey) :
    ∀ (df : List CleanRow) (v : MainRec),
      ∃ w, applyKey mainKeyOf mainInsert mainUpdate k df (some v) = some w ∧
        w.country_name = v.country_name ∧ w.indicator_name = v.indicator_name ∧
        w.decade = v.decade ∧ w.period = v.period ∧ w.continent = v.continent
  | [], v => ⟨v, rfl, rfl, rfl, rfl, rfl, rfl⟩
  | r :: t, v => by
    rw [applyKey_cons]
    by_cases h : mainKeyOf r = k
    · rw [if_pos h]
      have hstep : (some v).elim (mainInsert r) (mainUpdate r) = mainUpdate r v := rfl
      rw [hstep]
      obtain ⟨w, hw, h1, h2, h3, h4, h5⟩ := applyKey_main_desc k t (mainUpdate r v)
      exact ⟨w, hw, h1, h2, h3, h4, h5⟩
    · rw [if_neg h]
      exact applyKey_main_desc k t v

/-- Sample stored main-table row for concrete instantiations. -/
def sampleStored : MainRec :=
  { country_name := "India"
    indicator_name := "GDP"
    value := 1
    decade := 2020
    period := "2015-2020"
    continent := some "Asia"
    extracted_at := 5 }

/-- Sample storage holding one main-table row. -/
def sampleStorage : Storage :=
  { main := [(("IND", "NY.GDP.MKTP.CD", 2020), sampleStored)]
    latest := []
    yoy := []
    summary := [] }

/-- Claim C7: loading rows into the main table never changes the
descriptive columns of an already-stored key — only `value` and
`extracted_at` are overwritten on conflict; for a single conflicting row
the stored record afterwards is exactly the old record with those two
columns replaced. -/
theorem c7_main_upsert_frame (df : List CleanRow) (s : Storage) (k : MainKey)
    (v : MainRec) (hk : lookup k s.main = some v) :
    (∃ w, lookup k (loadMainData df s.main) = some w ∧
        w.country_name = v.country_name ∧ w.indicator_name = v.indicator_name ∧
        w.decade = v.decade ∧ w.period = v.period ∧ w.continent = v.continent) ∧
      ∀ r : CleanRow, mainKeyOf r = k →
        lookup k (loadMainData [r] s.main) =
          some { v with value := r.value, extracted_at := r.extracted_at } := by
  constructor
  · have he : loadMainData df s.main =
        applyRows mainKeyOf mainInsert mainUpdate df s.main := rfl
    rw [he, lookup_applyRows, hk]
    exact applyKey_main_desc k df v
  · intro r hr
    subst hr
    have he : loadMainData [r] s.main =
        upsert (mainKeyOf r) (mainInsert r) (mainUpdate r) s.main := rfl
    rw [he, lookup_upsert_self, hk]
    exact rfl

theorem c7_main_upsert_frame_witness :
    lookup ("IND", "NY.GDP.MKTP.CD", 2020) sampleStorage.main = some sampleStored ∧
      ((∃ w, lookup ("IND", "NY.GDP.MKTP.CD", 2020)
            (loadMainData [sampleClean "IND" "NY.GDP.MKTP.CD" 2021 7]
              sampleStorage.main) = some w ∧
          w.country_name = sampleStored.country_name ∧
          w.indicator_name = sampleStored.indicator_name ∧
          w.decade = sampleStored.decade ∧ w.period = sampleStored.period ∧
          w.continent = sampleStored.continent) ∧
        ∀ r : CleanRow, mainKeyOf r = ("IND", "NY.GDP.MKTP.CD", 2020) →
          lookup ("IND", "NY.GDP.MKTP.CD", 2020)
              (loadMainData [r] sampleStorage.main) =
            some { sampleStored with
                     value := r.value, extracted_at := r.extracted_at }) :=
  ⟨rfl, c7_main_upsert_frame [sampleClean "IND" "NY.GDP.MKTP.CD" 2021 7]
    sampleStorage ("IND", "NY.GDP.MKTP.CD", 2020) sampleStored rfl⟩

theorem foldl_bind_const_none : ∀ (ws : List DbWrite),
    ws.foldl (fun acc w => acc.bind w) none = none
  | [] => rfl
  | _ :: t => by
    rw [List.foldl_cons]
    exact foldl_bind_const_none t

theorem foldl_bind_none : ∀ (ws : List DbWrite) (o : Option Storage),
    (∃ w ∈ ws, ∀ x, w x = none) → ws.foldl (fun acc w => acc.bind w) o = none
  | [], _, h => by
    obtain ⟨w, hw, _⟩ := h
    cases hw
  | w0 :: t, o, h => by
    rw [List.foldl_cons]
    obtain ⟨w, hw, hfail⟩ := h
    rcases List.mem_cons.mp hw with rfl | hwt
    · have hb : o.bind w = none := by
        cases o with
        | none => rfl
        | some x => exact hfail x
      rw [hb]
      exact foldl_bind_const_none t
    · exact foldl_bind_none t _ ⟨w, hwt, hfail⟩

theorem runTransaction_append_fail (ws : List DbWrite) (s : Storage) :
    runTransaction (ws ++ [failingWrite]) s = none := by
  unfold runTransaction
  rw [List.foldl_append]
  cases ws.foldl (fun acc w => acc.bind w) (some s) with
  | none => rfl
  | some t => rfl

theorem commitOrRollback_fail {ws : List DbWrite} (s : Storage)
    (h : ∃ w ∈ ws, ∀ x, w x = none) : commitOrRollback ws s = (false, s) := by
  unfold commitOrRollback
  rw [show runTransaction ws s = none from foldl_bind_none ws (some s) h]

theorem runTransaction_mainWrites : ∀ (df : List CleanRow) (s : Storage),
    runTransaction (mainWrites df) s = some { s with main := loadMainData df s.main }
  | [], _ => rfl
  | r :: t, s => by
    have h1 : runTransaction (mainWrites (r :: t)) s =
        runTransaction (mainWrites t)
          { s with main := upsert (mainKeyOf r) (mainInsert r) (mainUpdate r) s.main } :=
      rfl
    rw [h1, runTransaction_mainWrites t]
    exact rfl

/-- Claim C8: a MySQL error inside a write batch makes that batch's
transaction roll back — the storage is exactly as before the batch — and
the error is re-raised (reported as failure to the caller); atomicity is
per table-group only: a failure injected into the aggregation batch, run
after the main batch committed, leaves the main table loaded while the
aggregation tables are unchanged. -/
theorem c8_rollback (df lat : List CleanRow) (ys : List YoyRow) (s : Storage)
    (ws : List DbWrite) (hfail : ∃ w ∈ ws, ∀ x, w x = none) :
    commitOrRollback ws s = (false, s) ∧
      commitOrRollback (aggWrites lat ys ++ [failingWrite])
          { s with main := loadMainData df s.main } =
        (false, { s with main := loadMainData df s.main }) ∧
      commitOrRollback (mainWrites df) s =
        (true, { s with main := loadMainData df s.main }) := by
  refine ⟨commitOrRollback_fail s hfail, ?_, ?_⟩
  · unfold commitOrRollback
    rw [runTransaction_append_fail]
  · unfold commitOrRollback
    rw [runTransaction_mainWrites]

theorem c8_rollback_witness :
    commitOrRollback [failingWrite] emptyStorage = (false, emptyStorage) ∧
      commitOrRollback (aggWrites [] [] ++ [failingWrite])
          { emptyStorage with main := loadMainData [] emptyStorage.main } =
        (false, { emptyStorage with main := loadMainData [] emptyStorage.main }) ∧
      commitOrRollback (mainWrites []) emptyStorage =
        (true, { emptyStorage with main := loadMainData [] emptyStorage.main }) :=
  c8_rollback [] [] [] emptyStorage [failingWrite]
    ⟨failingWrite, List.mem_cons_self _ _, fun _ => rfl⟩

/-- Claim C9, counterexample: with an empty extraction the run is reported
as a failure (`run_etl_pipeline` returns `False` before the transform
stage), but the process exit status is 0 because `__main__` discards the
return value, contradicting "non-zero otherwise". -/
theorem c9_counterexample :
    (runEtlPipeline [] ⟨true, false, false, false⟩ emptyStorage).success = false ∧
      mainExitCode [] ⟨true, false, false, false⟩ emptyStorage = 0 := by decide

/-- Claim C9 (amended): an empty extraction halts the pipeline before the
transform stage, with the run reported as a failure through the `False`
return value and storage untouched; the process exit status, however, is
0 for every run — success or failure — because `__main__` ignores the
return value of `run_etl_pipeline`. -/
theorem c9_exit_status (raw : List RawRow) (env : EnvFlags) (s : Storage) :
    (raw = [] → runEtlPipeline raw env s = ⟨false, s, ["extract"]⟩) ∧
      mainExitCode raw env s = 0 := by
  constructor
  · intro h
    subst h
    rfl
  · rfl

theorem c9_exit_status_witness :
    runEtlPipeline [] ⟨false, true, true, true⟩ emptyStorage =
      ⟨false, emptyStorage, ["extract"]⟩ ∧
      mainExitCode [] ⟨false, true, true, true⟩ emptyStorage = 0 :=
  ⟨(c9_exit_status [] ⟨false, true, true, true⟩ emptyStorage).1 rfl,
    (c9_exit_status [] ⟨false, true, true, true⟩ emptyStorage).2⟩

/-- Claim C10: when `connect()` returns a falsy value, `run_etl_pipeline`
skips table creation and every load step, leaves storage untouched, and
still returns `True`. -/
theorem c10_connect_falsy (raw : List RawRow) (df : List CleanRow)
    (env : EnvFlags) (s : Storage) (hconn : env.connectOk = false)
    (hraw : raw ≠ []) (htr : transform raw = Except.ok df) :
    runEtlPipeline raw env s = ⟨true, s, ["extract", "transform", "load"]⟩ := by
  cases raw with
  | nil => exact absurd rfl hraw
  | cons a t =>
    unfold runEtlPipeline
    rw [htr, hconn]
    exact rfl

theorem c10_connect_falsy_witness :
    runEtlPipeline [sampleRaw (some "IND") "SP.POP.TOTL" (some 2020) (some 1)]
        ⟨false, false, false, false⟩ emptyStorage =
      ⟨true, emptyStorage, ["extract", "transform", "load"]⟩ :=
  c10_connect_falsy _
    [enrichRow (sampleRaw (some "IND") "SP.POP.TOTL" (some 2020) (some 1))]
    ⟨false, false, false, false⟩ emptyStorage rfl (by decide) rfl

end WorldBankETL
